import Mathlib

/-!
Inverted index of the `indexdb` package (`tsdb/indexdb/inverted_index.go`).

A shallow embedding of the tag inverted index facade.

* `uint32` identifiers (series IDs, tag key IDs, tag value IDs) are natural
  numbers; the code performs no arithmetic on them.
* A `*roaring.Bitmap` is a finite set of natural numbers; a nil pointer is
  `none`.
* A Go `error` is `Option Error`, nil being `none`; a two-valued Go return
  `(x, err)` is a pair.
* The Go map `tags` is given to `buildInvertIndex` as the list of its pairs in
  the order in which `range` visits them.
* `*TagIndex` pointers held by the store are modelled by value: the mutation
  `tagIndex.buildInvertedIndex(..)` through the pointer is written back into
  the store entry it aliases.
-/

namespace Indexdb

/-! ## Collaborators that live outside `inverted_index.go` -/

/-- Errors of the package; `ErrNotFound` is `constants.ErrNotFound`, the other
constructor stands for any error a collaborator may report. -/
inductive Error where
  | ErrNotFound
  | other (msg : String)
  deriving DecidableEq, Repr

/-- A series ID bitmap. -/
abbrev Bitmap := Finset Nat

/-- Modelled from the spec: the type `TagIndex` and its methods are declared in
another file of the package. Section 3: a TagIndex is
`{ values: map[TagValueID] -> SeriesIDBitmap, allSeries: SeriesIDBitmap }`. -/
structure TagIndex where
  values : Nat → Option Bitmap
  allSeries : Bitmap

/-- Modelled from the spec: `newTagIndex()` creates a TagIndex that has received
no series yet. -/
def newTagIndex : TagIndex :=
  { values := fun _ => none, allSeries := ∅ }

/-- Modelled from the spec: section 4.2, `buildInvertedIndex(tagValueID, seriesID)`
inserts `seriesID` into the bitmap for `tagValueID` (creating it if absent) and
into `allSeries`. -/
def TagIndex.buildInvertedIndex (t : TagIndex) (tagValueID seriesID : Nat) : TagIndex :=
  { values := fun v =>
      if v = tagValueID then some (insert seriesID ((t.values v).getD ∅)) else t.values v
    allSeries := insert seriesID t.allSeries }

/-- Modelled from the spec: section 4.2, `getSeriesIDsByTagValueIDs(tagValueIDs)`
is the union of the bitmaps for every requested tagValueID that exists;
tagValueIDs with no entry contribute nothing. -/
def TagIndex.getSeriesIDsByTagValueIDs (t : TagIndex) (tagValueIDs : Bitmap) : Bitmap :=
  tagValueIDs.biUnion fun v => (t.values v).getD ∅

/-- Modelled from the spec: section 4.2, `getAllSeriesIDs()` returns `allSeries`. -/
def TagIndex.getAllSeriesIDs (t : TagIndex) : Bitmap :=
  t.allSeries

/-- Modelled from the spec: the type `TagIndexStore` is declared in another file
of the package. Section 3: `map[TagKeyID] -> TagIndex`. -/
structure TagIndexStore where
  indexes : Nat → Option TagIndex

/-- Modelled from the spec: `NewTagIndexStore()` is the store without any key. -/
def NewTagIndexStore : TagIndexStore :=
  { indexes := fun _ => none }

/-- Modelled from the spec: section 4.1, `get(tagKeyID) -> (TagIndex, found)`. -/
def TagIndexStore.Get (s : TagIndexStore) (tagKeyID : Nat) : Option TagIndex :=
  s.indexes tagKeyID

/-- Modelled from the spec: section 4.1, `put(tagKeyID, TagIndex)` inserts if
absent. -/
def TagIndexStore.Put (s : TagIndexStore) (tagKeyID : Nat) (t : TagIndex) : TagIndexStore :=
  { indexes := fun k =>
      if k = tagKeyID then (match s.indexes k with
        | some old => some old
        | none => some t)
      else s.indexes k }

/-- The effect on the store of mutating, through its pointer, the TagIndex the
store holds for `tagKeyID`. -/
def TagIndexStore.writeBack (s : TagIndexStore) (tagKeyID : Nat) (t : TagIndex) : TagIndexStore :=
  { indexes := fun k => if k = tagKeyID then some t else s.indexes k }

/-- The `MetadataDatabase()` collaborator of `metadb.Metadata`:
`GenTagKeyID(namespace, metricName, tagKey)`. -/
structure MetadataDatabase where
  GenTagKeyID : String → String → String → Except Error Nat

/-- The `TagMetadata()` collaborator of `metadb.Metadata`:
`GenTagValueID(tagKeyID, tagValue)`. -/
structure TagMetadata where
  GenTagValueID : Nat → String → Except Error Nat

/-- The interface `metadb.Metadata`, a parameter of the index. -/
structure Metadata where
  metadataDatabase : MetadataDatabase
  tagMetadata : TagMetadata

/-! ## `inverted_index.go` -/

/-- The struct `invertedIndex`. -/
structure invertedIndex where
  store : TagIndexStore
  metadata : Metadata

/-- The constructor `newInvertedIndex(metadata)`. -/
def newInvertedIndex (metadata : Metadata) : invertedIndex :=
  { metadata := metadata, store := NewTagIndexStore }

/-- The method `GetSeriesIDsByTagValueIDs(tagKeyID, tagValueIDs)`. -/
def invertedIndex.GetSeriesIDsByTagValueIDs (index : invertedIndex) (tagKeyID : Nat)
    (tagValueIDs : Bitmap) : Option Bitmap × Option Error :=
  match index.store.Get tagKeyID with
  | none => (none, some Error.ErrNotFound)
  | some tagIndex => (some (tagIndex.getSeriesIDsByTagValueIDs tagValueIDs), none)

/-- The method `GetSeriesIDsForTag(tagKeyID)`. -/
def invertedIndex.GetSeriesIDsForTag (index : invertedIndex) (tagKeyID : Nat) :
    Option Bitmap × Option Error :=
  match index.store.Get tagKeyID with
  | none => (none, some Error.ErrNotFound)
  | some tagIndex => (some tagIndex.getAllSeriesIDs, none)

/-- One iteration of the loop of `buildInvertIndex`, for the pair
`(tagKey, tagValue) = tag`. -/
def buildInvertIndexStep (metadata : Metadata) (namespace_ metricName : String)
    (seriesID : Nat) (store : TagIndexStore) (tag : String × String) : TagIndexStore :=
  match metadata.metadataDatabase.GenTagKeyID namespace_ metricName tag.1 with
  | .error _ => store
  | .ok tagKeyID =>
    let found : TagIndex × TagIndexStore :=
      match store.Get tagKeyID with
      | some tagIndex => (tagIndex, store)
      | none => (newTagIndex, store.Put tagKeyID newTagIndex)
    match metadata.tagMetadata.GenTagValueID tagKeyID tag.2 with
    | .error _ => found.2
    | .ok tagValueID =>
      found.2.writeBack tagKeyID (found.1.buildInvertedIndex tagValueID seriesID)

/-- The method `buildInvertIndex(namespace, metricName, tags, seriesID)`; `tags`
lists the pairs of the map in iteration order (nil and empty maps are `[]`). -/
def invertedIndex.buildInvertIndex (index : invertedIndex) (namespace_ metricName : String)
    (tags : List (String × String)) (seriesID : Nat) : invertedIndex :=
  { index with
    store := tags.foldl (buildInvertIndexStep index.metadata namespace_ metricName seriesID)
      index.store }

/-- Modelled from the spec: `query.TagValuesEntrySet` is declared in another
package of the repository. It is the per tag key structure from which a scan
resolves the tag value ID of a series; `tagValues` is what the (commented out)
call `SetTagValues(tagIndex.getValues())` would install. `addr` is the identity
of the allocated object. -/
structure TagValuesEntrySet where
  addr : Nat
  tagValues : Nat → Option Bitmap

/-- Modelled from the spec: `query.NewTagValuesEntrySet()` allocates, at the
next free address, an entry set that knows no tag value. -/
def NewTagValuesEntrySet (addr : Nat) : TagValuesEntrySet :=
  { addr := addr, tagValues := fun _ => none }

/-- Modelled from the spec: `query.GroupContext`, an ordered sequence of entry
set slots aligned with the requested tag keys; a slot not yet assigned is nil. -/
structure GroupContext where
  tagValuesEntrySets : List (Option TagValuesEntrySet)

/-- Modelled from the spec: `query.NewGroupContext(tagKeysLen)` has `tagKeysLen`
positions, none of them assigned. -/
def NewGroupContext (tagKeysLen : Nat) : GroupContext :=
  { tagValuesEntrySets := List.replicate tagKeysLen none }

/-- Modelled from the spec: `SetTagValuesEntrySet(idx, set)` assigns position
`idx`. -/
def GroupContext.SetTagValuesEntrySet (g : GroupContext) (idx : Nat)
    (tagValuesEntrySet : TagValuesEntrySet) : GroupContext :=
  { tagValuesEntrySets := g.tagValuesEntrySets.set idx (some tagValuesEntrySet) }

/-- The struct `groupingContext` wrapping the group context. -/
structure groupingContext where
  gCtx : GroupContext

/-- State of the validation loop of `GetGroupingContext`: the context under
construction, the allocator's next free address, and the record of which
iteration (by its tag key ID) allocated which address. -/
structure groupingLoopState where
  gCtx : GroupContext
  heapNext : Nat
  allocated : List (Nat × Nat)

/-- The loop `for idx, tagKeyID := range tagKeyIDs` of `GetGroupingContext`;
`none` is the early `return nil, constants.ErrNotFound`. -/
def groupingLoop (store : TagIndexStore) :
    Nat → List Nat → groupingLoopState → Option groupingLoopState
  | _, [], st => some st
  | idx, tagKeyID :: rest, st =>
    match store.Get tagKeyID with
    | none => none
    | some _ =>
      let tagValuesEntrySet := NewTagValuesEntrySet st.heapNext
      groupingLoop store (idx + 1) rest
        { gCtx := st.gCtx.SetTagValuesEntrySet idx tagValuesEntrySet
          heapNext := st.heapNext + 1
          allocated := st.allocated ++ [(tagValuesEntrySet.addr, tagKeyID)] }

/-- The body of `GetGroupingContext` up to its return statements, run with the
allocator at `heapNext`. -/
def invertedIndex.groupingRun (index : invertedIndex) (tagKeyIDs : List Nat)
    (heapNext : Nat) : Option groupingLoopState :=
  let tagKeysLen := tagKeyIDs.length
  let gCtx := NewGroupContext tagKeysLen
  groupingLoop index.store 0 tagKeyIDs { gCtx := gCtx, heapNext := heapNext, allocated := [] }

/-- The method `GetGroupingContext(tagKeyIDs)`. -/
def invertedIndex.GetGroupingContext (index : invertedIndex) (tagKeyIDs : List Nat)
    (heapNext : Nat) : Option groupingContext × Option Error :=
  match index.groupingRun tagKeyIDs heapNext with
  | none => (none, some Error.ErrNotFound)
  | some st => (some { gCtx := st.gCtx }, none)

/-- The allocations `GetGroupingContext(tagKeyIDs)` performs: pairs of the
address of an entry set and the tag key ID whose iteration allocated it. -/
def invertedIndex.groupingAllocations (index : invertedIndex) (tagKeyIDs : List Nat)
    (heapNext : Nat) : List (Nat × Nat) :=
  match index.groupingRun tagKeyIDs heapNext with
  | none => []
  | some st => st.allocated

/-- How a Go call ends: it returns a value or it panics. -/
inductive Outcome (α : Type) where
  | returned (a : α)
  | panicked (msg : String)

/-- The interface `invertedindex.Flusher`, acting on a writer state `σ`. -/
structure Flusher (σ : Type) where
  FlushTagValue : σ → Nat → Bitmap → σ × Option Error
  FlushTagKeyID : σ → Nat → σ × Option Error

/-- The method `FlushInvertedIndexTo(flusher)`: its body is
`panic("need to impl")`, the walk over the store being commented out. -/
def invertedIndex.FlushInvertedIndexTo {σ : Type} (_index : invertedIndex)
    (_flusher : Flusher σ) (_w : σ) : Outcome (σ × Option Error) :=
  Outcome.panicked "need to impl"

/-- One call of `buildInvertIndex`. -/
structure BuildCall where
  namespace_ : String
  metricName : String
  tags : List (String × String)
  seriesID : Nat

/-- A finite sequence of `buildInvertIndex` calls applied in order. -/
def invertedIndex.buildAll (index : invertedIndex) (calls : List BuildCall) : invertedIndex :=
  calls.foldl (fun ix c => ix.buildInvertIndex c.namespace_ c.metricName c.tags c.seriesID) index

/-- The TagIndex a loop iteration leaves under the tag key it resolved: the one
found (or the freshly created one), with the series added when the tag value
resolved too. -/
def stepTagIndex (metadata : Metadata) (seriesID tagKeyID : Nat) (tagValue : String)
    (old : Option TagIndex) : TagIndex :=
  match metadata.tagMetadata.GenTagValueID tagKeyID tagValue with
  | .error _ => old.getD newTagIndex
  | .ok tagValueID => (old.getD newTagIndex).buildInvertedIndex tagValueID seriesID

/-- Series `s` is in the bitmap the store holds for tag value `v` under key `k`. -/
def Registered (store : TagIndexStore) (k v s : Nat) : Prop :=
  ∃ t, store.Get k = some t ∧ s ∈ (t.values v).getD ∅

/-- Series `s` is in the all-series bitmap the store holds for key `k`. -/
def RegisteredAll (store : TagIndexStore) (k s : Nat) : Prop :=
  ∃ t, store.Get k = some t ∧ s ∈ t.allSeries

/-! ## Concrete data for the scenarios of section 8 -/

/-- A metadata collaborator: tag keys `region`, `env` and `zone` resolve to 1, 2
and 3, every other tag key fails; tag values `us`, `eu` and `prod` resolve to
100, 101 and 200, every other tag value fails. -/
def exampleMetadata : Metadata :=
  { metadataDatabase :=
      { GenTagKeyID := fun _ _ tagKey =>
          if tagKey = "region" then .ok 1
          else if tagKey = "env" then .ok 2
          else if tagKey = "zone" then .ok 3
          else .error (Error.other "gen tag key id") }
    tagMetadata :=
      { GenTagValueID := fun _ tagValue =>
          if tagValue = "us" then .ok 100
          else if tagValue = "eu" then .ok 101
          else if tagValue = "prod" then .ok 200
          else .error (Error.other "gen tag value id") } }

/-- The calls of the concrete scenario: series 10 with `{region: us, env: prod}`
and series 11 with `{region: eu}`. -/
def exampleCalls : List BuildCall :=
  [{ namespace_ := "ns", metricName := "cpu",
     tags := [("region", "us"), ("env", "prod")], seriesID := 10 },
   { namespace_ := "ns", metricName := "cpu",
     tags := [("region", "eu")], seriesID := 11 }]

/-- The index of the concrete scenario. -/
def exampleIndex : invertedIndex :=
  (newInvertedIndex exampleMetadata).buildAll exampleCalls

/-- An index in which series 10 carries tag value 100 under tag key 1. -/
def entryIndexA : invertedIndex :=
  (newInvertedIndex exampleMetadata).buildInvertIndex "ns" "cpu" [("region", "us")] 10

/-- An index in which series 10 carries tag value 101 under tag key 1. -/
def entryIndexB : invertedIndex :=
  (newInvertedIndex exampleMetadata).buildInvertIndex "ns" "cpu" [("region", "eu")] 10

/-- A store whose tag keys were inserted in the order 5, 1, 3. -/
def flushExampleIndex : invertedIndex :=
  { store := ((NewTagIndexStore.Put 5 newTagIndex).Put 1 newTagIndex).Put 3 newTagIndex
    metadata := exampleMetadata }

/-- A call the flusher received. -/
inductive FlushCall where
  | tagValue (tagValueID : Nat) (seriesIDs : Bitmap)
  | tagKeyID (tagKeyID : Nat)

/-- A flusher all of whose calls succeed; it records the calls it receives. -/
def recordingFlusher : Flusher (List FlushCall) :=
  { FlushTagValue := fun w tagValueID seriesIDs => (w ++ [FlushCall.tagValue tagValueID seriesIDs], none)
    FlushTagKeyID := fun w tagKeyID => (w ++ [FlushCall.tagKeyID tagKeyID], none) }

/-! ## The write path: what one loop iteration does to the store -/

theorem TagIndexStore.ext_indexes {a b : TagIndexStore} (h : ∀ k, a.indexes k = b.indexes k) :
    a = b := by
  cases a; cases b
  congr
  exact funext h

theorem TagIndex.ext_fields {a b : TagIndex} (hv : ∀ v, a.values v = b.values v)
    (hs : a.allSeries = b.allSeries) : a = b := by
  cases a; cases b
  simp only [TagIndex.mk.injEq]
  exact ⟨funext hv, hs⟩

theorem buildInvertIndexStep_indexes (metadata : Metadata) (namespace_ metricName : String)
    (seriesID : Nat) (store : TagIndexStore) (tag : String × String) (k : Nat) :
    (buildInvertIndexStep metadata namespace_ metricName seriesID store tag).indexes k =
      match metadata.metadataDatabase.GenTagKeyID namespace_ metricName tag.1 with
      | .error _ => store.indexes k
      | .ok tagKeyID =>
        if k = tagKeyID then
          some (stepTagIndex metadata seriesID tagKeyID tag.2 (store.indexes tagKeyID))
        else store.indexes k := by
  unfold buildInvertIndexStep stepTagIndex
  cases hk : metadata.metadataDatabase.GenTagKeyID namespace_ metricName tag.1 with
  | error e => rfl
  | ok tagKeyID =>
    cases hv : metadata.tagMetadata.GenTagValueID tagKeyID tag.2 with
    | error e =>
      cases hg : store.indexes tagKeyID with
      | none =>
        by_cases hkk : k = tagKeyID
        · subst hkk; simp [TagIndexStore.Get, TagIndexStore.Put, hg, hv]
        · simp [TagIndexStore.Get, TagIndexStore.Put, hg, hkk, hv]
      | some t =>
        by_cases hkk : k = tagKeyID
        · subst hkk; simp [TagIndexStore.Get, hg, hv]
        · simp [TagIndexStore.Get, hg, hkk, hv]
    | ok tagValueID =>
      cases hg : store.indexes tagKeyID with
      | none =>
        by_cases hkk : k = tagKeyID
        · subst hkk; simp [TagIndexStore.Get, TagIndexStore.writeBack, hg, hv]
        · simp [TagIndexStore.Get, TagIndexStore.Put, TagIndexStore.writeBack, hg, hkk, hv]
      | some t =>
        by_cases hkk : k = tagKeyID
        · subst hkk; simp [TagIndexStore.Get, TagIndexStore.writeBack, hg, hv]
        · simp [TagIndexStore.Get, TagIndexStore.writeBack, hg, hkk, hv]

theorem foldl_or_iff {α β : Type} (f : β → α → β) (P : β → Prop) (Q : α → Prop)
    (h : ∀ b a, P (f b a) ↔ P b ∨ Q a) :
    ∀ (l : List α) (b : β), P (l.foldl f b) ↔ P b ∨ ∃ a ∈ l, Q a := by
  intro l
  induction l with
  | nil => intro b; simp
  | cons x xs ih =>
    intro b
    simp only [List.foldl_cons, ih, h, List.mem_cons, exists_eq_or_imp]
    tauto

theorem stepTagIndex_values_mem (metadata : Metadata) (seriesID tagKeyID : Nat)
    (tagValue : String) (old : Option TagIndex) (v s : Nat) :
    s ∈ ((stepTagIndex metadata seriesID tagKeyID tagValue old).values v).getD ∅ ↔
      (∃ t, old = some t ∧ s ∈ (t.values v).getD ∅) ∨
        (metadata.tagMetadata.GenTagValueID tagKeyID tagValue = .ok v ∧ s = seriesID) := by
  unfold stepTagIndex
  cases hv : metadata.tagMetadata.GenTagValueID tagKeyID tagValue with
  | error e =>
    cases old with
    | none => simp [newTagIndex]
    | some t => simp
  | ok tagValueID =>
    cases old with
    | none =>
      by_cases hvv : v = tagValueID
      · subst hvv; simp [newTagIndex, TagIndex.buildInvertedIndex]
      · have hne : tagValueID ≠ v := fun h => hvv h.symm
        simp [newTagIndex, TagIndex.buildInvertedIndex, hvv, hne]
    | some t =>
      by_cases hvv : v = tagValueID
      · subst hvv
        simp only [TagIndex.buildInvertedIndex, Option.getD_some, if_true, Finset.mem_insert,
          Option.some.injEq, exists_eq_left', Except.ok.injEq, true_and]
        tauto
      · have hne : tagValueID ≠ v := fun h => hvv h.symm
        simp [TagIndex.buildInvertedIndex, hvv, hne]

theorem stepTagIndex_allSeries_mem (metadata : Metadata) (seriesID tagKeyID : Nat)
    (tagValue : String) (old : Option TagIndex) (s : Nat) :
    s ∈ (stepTagIndex metadata seriesID tagKeyID tagValue old).allSeries ↔
      (∃ t, old = some t ∧ s ∈ t.allSeries) ∨
        ((∃ v, metadata.tagMetadata.GenTagValueID tagKeyID tagValue = .ok v) ∧ s = seriesID) := by
  unfold stepTagIndex
  cases hv : metadata.tagMetadata.GenTagValueID tagKeyID tagValue with
  | error e =>
    cases old with
    | none => simp [newTagIndex]
    | some t => simp
  | ok tagValueID =>
    cases old with
    | none => simp [newTagIndex, TagIndex.buildInvertedIndex]
    | some t =>
      simp only [TagIndex.buildInvertedIndex, Option.getD_some, Finset.mem_insert,
        Option.some.injEq, exists_eq_left', Except.ok.injEq, exists_eq', true_and]
      tauto

theorem buildInvertIndexStep_get_isSome (metadata : Metadata) (namespace_ metricName : String)
    (seriesID : Nat) (k : Nat) (store : TagIndexStore) (tag : String × String) :
    ((buildInvertIndexStep metadata namespace_ metricName seriesID store tag).Get k).isSome = true ↔
      (store.Get k).isSome = true ∨
        metadata.metadataDatabase.GenTagKeyID namespace_ metricName tag.1 = .ok k := by
  simp only [TagIndexStore.Get, buildInvertIndexStep_indexes]
  cases hk : metadata.metadataDatabase.GenTagKeyID namespace_ metricName tag.1 with
  | error e => simp
  | ok tagKeyID =>
    by_cases hkk : k = tagKeyID
    · subst hkk; simp
    · have hne : tagKeyID ≠ k := fun h => hkk h.symm
      simp [hkk, hne]

theorem buildInvertIndexStep_registered (metadata : Metadata) (namespace_ metricName : String)
    (seriesID : Nat) (k v s : Nat) (store : TagIndexStore) (tag : String × String) :
    Registered (buildInvertIndexStep metadata namespace_ metricName seriesID store tag) k v s ↔
      Registered store k v s ∨
        (metadata.metadataDatabase.GenTagKeyID namespace_ metricName tag.1 = .ok k ∧
          metadata.tagMetadata.GenTagValueID k tag.2 = .ok v ∧ s = seriesID) := by
  simp only [Registered, TagIndexStore.Get, buildInvertIndexStep_indexes]
  cases hk : metadata.metadataDatabase.GenTagKeyID namespace_ metricName tag.1 with
  | error e => simp
  | ok tagKeyID =>
    by_cases hkk : k = tagKeyID
    · subst hkk
      simp only [if_true, Option.some.injEq, exists_eq_left', stepTagIndex_values_mem,
        true_and]
    · have hne : tagKeyID ≠ k := fun h => hkk h.symm
      simp [hkk, hne]

theorem buildInvertIndexStep_registeredAll (metadata : Metadata) (namespace_ metricName : String)
    (seriesID : Nat) (k s : Nat) (store : TagIndexStore) (tag : String × String) :
    RegisteredAll (buildInvertIndexStep metadata namespace_ metricName seriesID store tag) k s ↔
      RegisteredAll store k s ∨
        (metadata.metadataDatabase.GenTagKeyID namespace_ metricName tag.1 = .ok k ∧
          (∃ v, metadata.tagMetadata.GenTagValueID k tag.2 = .ok v) ∧ s = seriesID) := by
  simp only [RegisteredAll, TagIndexStore.Get, buildInvertIndexStep_indexes]
  cases hk : metadata.metadataDatabase.GenTagKeyID namespace_ metricName tag.1 with
  | error e => simp
  | ok tagKeyID =>
    by_cases hkk : k = tagKeyID
    · subst hkk
      simp only [if_true, Option.some.injEq, exists_eq_left', stepTagIndex_allSeries_mem,
        true_and]
    · have hne : tagKeyID ≠ k := fun h => hkk h.symm
      simp [hkk, hne]

theorem buildInvertIndex_metadata (index : invertedIndex) (namespace_ metricName : String)
    (tags : List (String × String)) (seriesID : Nat) :
    (index.buildInvertIndex namespace_ metricName tags seriesID).metadata = index.metadata :=
  rfl

theorem buildInvertIndex_get_isSome (index : invertedIndex) (namespace_ metricName : String)
    (tags : List (String × String)) (seriesID k : Nat) :
    ((index.buildInvertIndex namespace_ metricName tags seriesID).store.Get k).isSome = true ↔
      (index.store.Get k).isSome = true ∨
        ∃ tag ∈ tags,
          index.metadata.metadataDatabase.GenTagKeyID namespace_ metricName tag.1 = .ok k :=
  foldl_or_iff _ (fun st => (st.Get k).isSome = true) _
    (buildInvertIndexStep_get_isSome index.metadata namespace_ metricName seriesID k)
    tags index.store

theorem buildInvertIndex_registered (index : invertedIndex) (namespace_ metricName : String)
    (tags : List (String × String)) (seriesID k v s : Nat) :
    Registered (index.buildInvertIndex namespace_ metricName tags seriesID).store k v s ↔
      Registered index.store k v s ∨
        ∃ tag ∈ tags,
          index.metadata.metadataDatabase.GenTagKeyID namespace_ metricName tag.1 = .ok k ∧
            index.metadata.tagMetadata.GenTagValueID k tag.2 = .ok v ∧ s = seriesID :=
  foldl_or_iff _ (fun st => Registered st k v s) _
    (buildInvertIndexStep_registered index.metadata namespace_ metricName seriesID k v s)
    tags index.store

theorem buildInvertIndex_registeredAll (index : invertedIndex) (namespace_ metricName : String)
    (tags : List (String × String)) (seriesID k s : Nat) :
    RegisteredAll (index.buildInvertIndex namespace_ metricName tags seriesID).store k s ↔
      RegisteredAll index.store k s ∨
        ∃ tag ∈ tags,
          index.metadata.metadataDatabase.GenTagKeyID namespace_ metricName tag.1 = .ok k ∧
            (∃ v, index.metadata.tagMetadata.GenTagValueID k tag.2 = .ok v) ∧ s = seriesID :=
  foldl_or_iff _ (fun st => RegisteredAll st k s) _
    (buildInvertIndexStep_registeredAll index.metadata namespace_ metricName seriesID k s)
    tags index.store

theorem buildAll_metadata (calls : List BuildCall) :
    ∀ index : invertedIndex, (index.buildAll calls).metadata = index.metadata := by
  induction calls with
  | nil => intro index; rfl
  | cons c cs ih =>
    intro index
    simp only [invertedIndex.buildAll, List.foldl_cons]
    exact (ih _).trans (buildInvertIndex_metadata _ _ _ _ _)

theorem buildAll_get_isSome (calls : List BuildCall) (k : Nat) :
    ∀ index : invertedIndex,
      ((index.buildAll calls).store.Get k).isSome = true ↔
        (index.store.Get k).isSome = true ∨
          ∃ c ∈ calls, ∃ tag ∈ c.tags,
            index.metadata.metadataDatabase.GenTagKeyID c.namespace_ c.metricName tag.1
              = .ok k := by
  induction calls with
  | nil => intro index; simp [invertedIndex.buildAll]
  | cons c cs ih =>
    intro index
    have e : index.buildAll (c :: cs)
        = (index.buildInvertIndex c.namespace_ c.metricName c.tags c.seriesID).buildAll cs := rfl
    rw [e, ih, buildInvertIndex_get_isSome, buildInvertIndex_metadata]
    simp only [List.mem_cons, exists_eq_or_imp]
    exact or_assoc

theorem buildAll_registered (calls : List BuildCall) (k v s : Nat) :
    ∀ index : invertedIndex,
      Registered (index.buildAll calls).store k v s ↔
        Registered index.store k v s ∨
          ∃ c ∈ calls, ∃ tag ∈ c.tags,
            index.metadata.metadataDatabase.GenTagKeyID c.namespace_ c.metricName tag.1
                = .ok k ∧
              index.metadata.tagMetadata.GenTagValueID k tag.2 = .ok v ∧ s = c.seriesID := by
  induction calls with
  | nil => intro index; simp [invertedIndex.buildAll]
  | cons c cs ih =>
    intro index
    have e : index.buildAll (c :: cs)
        = (index.buildInvertIndex c.namespace_ c.metricName c.tags c.seriesID).buildAll cs := rfl
    rw [e, ih, buildInvertIndex_registered, buildInvertIndex_metadata]
    simp only [List.mem_cons, exists_eq_or_imp]
    exact or_assoc

theorem not_registered_new (k v s : Nat) : ¬ Registered NewTagIndexStore k v s := by
  simp [Registered, NewTagIndexStore, TagIndexStore.Get]

theorem TagIndex.buildInvertedIndex_comm (t : TagIndex) (v₁ v₂ s : Nat) :
    (t.buildInvertedIndex v₁ s).buildInvertedIndex v₂ s
      = (t.buildInvertedIndex v₂ s).buildInvertedIndex v₁ s := by
  apply TagIndex.ext_fields
  · intro v
    by_cases h1 : v = v₁
    · subst h1
      by_cases h2 : v = v₂
      · subst h2; simp [TagIndex.buildInvertedIndex]
      · simp [TagIndex.buildInvertedIndex, h2]
    · by_cases h2 : v = v₂
      · subst h2; simp [TagIndex.buildInvertedIndex, h1]
      · simp [TagIndex.buildInvertedIndex, h1, h2]
  · simp [TagIndex.buildInvertedIndex]

theorem stepTagIndex_comm (metadata : Metadata) (seriesID tagKeyID : Nat)
    (a b : String) (old : Option TagIndex) :
    stepTagIndex metadata seriesID tagKeyID b (some (stepTagIndex metadata seriesID tagKeyID a old))
      = stepTagIndex metadata seriesID tagKeyID a
          (some (stepTagIndex metadata seriesID tagKeyID b old)) := by
  unfold stepTagIndex
  cases ha : metadata.tagMetadata.GenTagValueID tagKeyID a <;>
    cases hb : metadata.tagMetadata.GenTagValueID tagKeyID b <;>
    simp [TagIndex.buildInvertedIndex_comm]

theorem buildInvertIndexStep_comm (metadata : Metadata) (namespace_ metricName : String)
    (seriesID : Nat) (store : TagIndexStore) (a b : String × String) :
    buildInvertIndexStep metadata namespace_ metricName seriesID
        (buildInvertIndexStep metadata namespace_ metricName seriesID store a) b
      = buildInvertIndexStep metadata namespace_ metricName seriesID
          (buildInvertIndexStep metadata namespace_ metricName seriesID store b) a := by
  apply TagIndexStore.ext_indexes
  intro k
  simp only [buildInvertIndexStep_indexes]
  cases ha : metadata.metadataDatabase.GenTagKeyID namespace_ metricName a.1 with
  | error ea =>
    cases hb : metadata.metadataDatabase.GenTagKeyID namespace_ metricName b.1 <;> simp
  | ok ka =>
    cases hb : metadata.metadataDatabase.GenTagKeyID namespace_ metricName b.1 with
    | error eb => simp
    | ok kb =>
      by_cases hab : ka = kb
      · subst hab
        by_cases hk : k = ka
        · subst hk
          simp [stepTagIndex_comm]
        · simp [hk]
      · have hba : kb ≠ ka := fun h => hab h.symm
        by_cases hk : k = ka
        · subst hk
          simp [hab, hba]
        · by_cases hk2 : k = kb
          · subst hk2
            simp [hab, hba]
          · simp [hk, hk2]

/-! ## Lookup contract -/

/-- C1: `GetSeriesIDsByTagValueIDs` and `GetSeriesIDsForTag` return
`(nil, ErrNotFound)` exactly when the store has no TagIndex for the tag key, and
return a bitmap with a nil error exactly when it has one. -/
theorem lookup_notFound_iff_absent (index : invertedIndex) (tagKeyID : Nat)
    (tagValueIDs : Bitmap) :
    (index.GetSeriesIDsByTagValueIDs tagKeyID tagValueIDs = (none, some Error.ErrNotFound)
        ↔ index.store.Get tagKeyID = none) ∧
    (index.GetSeriesIDsForTag tagKeyID = (none, some Error.ErrNotFound)
        ↔ index.store.Get tagKeyID = none) ∧
    ((∃ bm, index.GetSeriesIDsByTagValueIDs tagKeyID tagValueIDs = (some bm, none))
        ↔ (index.store.Get tagKeyID).isSome = true) ∧
    ((∃ bm, index.GetSeriesIDsForTag tagKeyID = (some bm, none))
        ↔ (index.store.Get tagKeyID).isSome = true) := by
  unfold invertedIndex.GetSeriesIDsByTagValueIDs invertedIndex.GetSeriesIDsForTag
  cases h : index.store.Get tagKeyID <;> simp

/-! ## Grouping context -/

theorem groupingLoop_eq_none_iff (store : TagIndexStore) (tagKeyIDs : List Nat) :
    ∀ (idx : Nat) (st : groupingLoopState),
      groupingLoop store idx tagKeyIDs st = none ↔ ∃ k ∈ tagKeyIDs, store.Get k = none := by
  induction tagKeyIDs with
  | nil => intro idx st; simp [groupingLoop]
  | cons k rest ih =>
    intro idx st
    cases h : store.Get k with
    | none => simp [groupingLoop, h]
    | some t => simp [groupingLoop, h, ih]

theorem groupingLoop_result (store : TagIndexStore) (tagKeyIDs : List Nat) :
    ∀ (idx : Nat) (st st' : groupingLoopState) (pre : List (Option TagValuesEntrySet)),
      st.gCtx.tagValuesEntrySets = pre ++ List.replicate tagKeyIDs.length none →
      pre.length = idx →
      groupingLoop store idx tagKeyIDs st = some st' →
      st'.gCtx.tagValuesEntrySets
          = pre ++ (List.enumFrom st.heapNext tagKeyIDs).map
              (fun p => some (NewTagValuesEntrySet p.1)) ∧
        st'.allocated = st.allocated ++ List.enumFrom st.heapNext tagKeyIDs := by
  induction tagKeyIDs with
  | nil =>
    intro idx st st' pre hpre _ hrun
    simp only [groupingLoop, Option.some.injEq] at hrun
    subst hrun
    simpa using hpre
  | cons k rest ih =>
    intro idx st st' pre hpre hlen hrun
    cases h : store.Get k with
    | none => simp [groupingLoop, h] at hrun
    | some t =>
      simp only [groupingLoop, h] at hrun
      have hset : (st.gCtx.SetTagValuesEntrySet idx
            (NewTagValuesEntrySet st.heapNext)).tagValuesEntrySets
          = (pre ++ [some (NewTagValuesEntrySet st.heapNext)])
              ++ List.replicate rest.length none := by
        simp only [GroupContext.SetTagValuesEntrySet, hpre, List.length_cons,
          List.replicate_succ]
        rw [List.set_append_right _ _ (by omega)]
        simp [hlen]
      have := ih (idx + 1) _ st' (pre ++ [some (NewTagValuesEntrySet st.heapNext)]) hset
        (by simp [hlen]) hrun
      obtain ⟨h1, h2⟩ := this
      refine ⟨?_, ?_⟩
      · rw [h1]; simp [NewTagValuesEntrySet]
      · rw [h2]; simp [NewTagValuesEntrySet]

theorem groupingRun_result (index : invertedIndex) (tagKeyIDs : List Nat) (heapNext : Nat)
    (st : groupingLoopState) (hrun : index.groupingRun tagKeyIDs heapNext = some st) :
    st.gCtx.tagValuesEntrySets
        = (List.enumFrom heapNext tagKeyIDs).map (fun p => some (NewTagValuesEntrySet p.1)) ∧
      st.allocated = List.enumFrom heapNext tagKeyIDs := by
  have := groupingLoop_result index.store tagKeyIDs 0 _ st [] (by simp [NewGroupContext]) rfl hrun
  simpa using this

/-- C6: `GetGroupingContext` returns `(nil, ErrNotFound)` exactly when some
requested tag key has no TagIndex in the store, whatever precedes that key in
the sequence, and returns a context with a nil error exactly when every
requested key exists (in particular for the empty sequence). -/
theorem getGroupingContext_all_or_nothing (index : invertedIndex) (tagKeyIDs : List Nat)
    (heapNext : Nat) :
    (index.GetGroupingContext tagKeyIDs heapNext = (none, some Error.ErrNotFound)
        ↔ ∃ k ∈ tagKeyIDs, index.store.Get k = none) ∧
    ((∃ ctx, index.GetGroupingContext tagKeyIDs heapNext = (some ctx, none))
        ↔ ∀ k ∈ tagKeyIDs, (index.store.Get k).isSome = true) ∧
    (index.GetGroupingContext tagKeyIDs heapNext = (none, some Error.ErrNotFound) ∨
      ∃ ctx, index.GetGroupingContext tagKeyIDs heapNext = (some ctx, none)) := by
  have key := groupingLoop_eq_none_iff index.store tagKeyIDs 0
    { gCtx := NewGroupContext tagKeyIDs.length, heapNext := heapNext, allocated := [] }
  unfold invertedIndex.GetGroupingContext invertedIndex.groupingRun
  cases hrun : groupingLoop index.store 0 tagKeyIDs
      { gCtx := NewGroupContext tagKeyIDs.length, heapNext := heapNext, allocated := [] } with
  | none =>
    have hex := key.mp hrun
    obtain ⟨k, hk, hget⟩ := hex
    refine ⟨by simpa using ⟨k, hk, hget⟩, ?_, by simp⟩
    constructor
    · rintro ⟨ctx, hctx⟩
      simp at hctx
    · intro hsome
      have := hsome k hk
      simp [hget] at this
  | some st =>
    have hall : ¬ ∃ k ∈ tagKeyIDs, index.store.Get k = none := by
      intro hex
      rw [key.mpr hex] at hrun
      exact Option.noConfusion hrun
    refine ⟨by simpa using hall, ?_, by simp⟩
    simp only [Prod.mk.injEq, Option.some.injEq, and_true, exists_eq', true_iff]
    intro k hk
    cases hget : index.store.Get k with
    | none => exact absurd ⟨k, hk, hget⟩ hall
    | some t => rfl

/-- C7: when every requested tag key exists in the store,
`GetGroupingContext(tagKeyIDs)` returns a context with exactly
`len(tagKeyIDs)` positions, and position `i` holds the entry set that was
allocated by the iteration for `tagKeyIDs[i]` (the `i`-th allocation). -/
theorem getGroupingContext_positions (index : invertedIndex) (tagKeyIDs : List Nat)
    (heapNext : Nat) (hall : ∀ k ∈ tagKeyIDs, (index.store.Get k).isSome = true) :
    ∃ ctx, index.GetGroupingContext tagKeyIDs heapNext = (some ctx, none) ∧
      ctx.gCtx.tagValuesEntrySets.length = tagKeyIDs.length ∧
      (index.groupingAllocations tagKeyIDs heapNext).length = tagKeyIDs.length ∧
      ∀ (i : Nat) (hi : i < tagKeyIDs.length),
        ∃ e, ctx.gCtx.tagValuesEntrySets[i]? = some (some e) ∧
          e.addr = heapNext + i ∧
          (index.groupingAllocations tagKeyIDs heapNext)[i]? = some (e.addr, tagKeyIDs[i]) := by
  unfold invertedIndex.GetGroupingContext invertedIndex.groupingAllocations
  cases hrun : index.groupingRun tagKeyIDs heapNext with
  | none =>
    have := (groupingLoop_eq_none_iff index.store tagKeyIDs 0 _).mp hrun
    obtain ⟨k, hk, hget⟩ := this
    have := hall k hk
    simp [hget] at this
  | some st =>
    obtain ⟨h1, h2⟩ := groupingRun_result index tagKeyIDs heapNext st hrun
    refine ⟨{ gCtx := st.gCtx }, rfl, by simp [h1], by simp [h2], ?_⟩
    intro i hi
    refine ⟨NewTagValuesEntrySet (heapNext + i), ?_, rfl, ?_⟩
    · simp [h1, List.getElem?_eq_getElem hi]
    · simp [h2, List.getElem?_eq_getElem hi, NewTagValuesEntrySet]

/-! ## Write path contracts -/

/-- C2: starting from an empty index and applying any finite sequence of
`buildInvertIndex` calls against a fixed metadata collaborator, for every tag
key ID `k` that some call resolved and every set `V` of tag value IDs,
`GetSeriesIDsByTagValueIDs(k, V)` succeeds and returns exactly the series IDs
that some call registered with a tag resolving to key `k` and to a value ID in
`V`. The statement does not need the resolutions to succeed: a tag whose
resolution fails registers nothing. -/
theorem buildAll_query_exact (metadata : Metadata) (calls : List BuildCall) (k : Nat)
    (V : Bitmap)
    (hk : ∃ c ∈ calls, ∃ tag ∈ c.tags,
      metadata.metadataDatabase.GenTagKeyID c.namespace_ c.metricName tag.1 = .ok k) :
    ∃ bm, ((newInvertedIndex metadata).buildAll calls).GetSeriesIDsByTagValueIDs k V
        = (some bm, none) ∧
      ∀ s, s ∈ bm ↔
        ∃ c ∈ calls, c.seriesID = s ∧ ∃ tag ∈ c.tags, ∃ v ∈ V,
          metadata.metadataDatabase.GenTagKeyID c.namespace_ c.metricName tag.1 = .ok k ∧
            metadata.tagMetadata.GenTagValueID k tag.2 = .ok v := by
  have hsome : (((newInvertedIndex metadata).buildAll calls).store.Get k).isSome = true :=
    (buildAll_get_isSome calls k (newInvertedIndex metadata)).mpr (Or.inr hk)
  have hreg := fun v s => buildAll_registered calls k v s (newInvertedIndex metadata)
  unfold invertedIndex.GetSeriesIDsByTagValueIDs
  cases hget : ((newInvertedIndex metadata).buildAll calls).store.Get k with
  | none => simp [hget] at hsome
  | some t =>
    refine ⟨_, rfl, ?_⟩
    intro s
    simp only [TagIndex.getSeriesIDsByTagValueIDs, Finset.mem_biUnion]
    constructor
    · rintro ⟨v, hvV, hmem⟩
      have := (hreg v s).mp ⟨t, hget, hmem⟩
      rcases this with h | ⟨c, hc, tag, htag, h1, h2, h3⟩
      · exact absurd h (not_registered_new k v s)
      · exact ⟨c, hc, h3.symm, tag, htag, v, hvV, h1, h2⟩
    · rintro ⟨c, hc, hs, tag, htag, v, hvV, h1, h2⟩
      have := (hreg v s).mpr (Or.inr ⟨c, hc, tag, htag, h1, h2, hs.symm⟩)
      obtain ⟨t2, ht2, hmem⟩ := this
      rw [hget] at ht2
      cases ht2
      exact ⟨v, hvV, hmem⟩

/-- C2, the concrete scenario: series 10 with `{region: us, env: prod}` and
series 11 with `{region: eu}`, `region = 1`, `us = 100`, `eu = 101`, give
`{10}` for `V = {100}` and `{10, 11}` for `V = {100, 101}`. -/
theorem buildAll_query_exact_witness :
    (∃ c ∈ exampleCalls, ∃ tag ∈ c.tags,
      exampleMetadata.metadataDatabase.GenTagKeyID c.namespace_ c.metricName tag.1 = .ok 1) ∧
    (∃ bm, ((newInvertedIndex exampleMetadata).buildAll exampleCalls).GetSeriesIDsByTagValueIDs
          1 {100, 101} = (some bm, none) ∧
      ∀ s, s ∈ bm ↔
        ∃ c ∈ exampleCalls, c.seriesID = s ∧ ∃ tag ∈ c.tags, ∃ v ∈ ({100, 101} : Bitmap),
          exampleMetadata.metadataDatabase.GenTagKeyID c.namespace_ c.metricName tag.1 = .ok 1 ∧
            exampleMetadata.tagMetadata.GenTagValueID 1 tag.2 = .ok v) ∧
    exampleIndex.GetSeriesIDsByTagValueIDs 1 {100} = (some {10}, none) ∧
    exampleIndex.GetSeriesIDsByTagValueIDs 1 {100, 101} = (some {10, 11}, none) ∧
    exampleIndex.GetSeriesIDsByTagValueIDs 1 {102} = (some ∅, none) :=
  have h : ∃ c ∈ exampleCalls, ∃ tag ∈ c.tags,
      exampleMetadata.metadataDatabase.GenTagKeyID c.namespace_ c.metricName tag.1 = .ok 1 :=
    ⟨_, List.mem_cons_self _ _, ("region", "us"), List.mem_cons_self _ _, rfl⟩
  ⟨h, buildAll_query_exact exampleMetadata exampleCalls 1 {100, 101} h,
    by decide, by decide, by decide⟩

/-- C3: with `tags` nil or empty the loop body never runs, so `buildInvertIndex`
leaves the index as it was and the series is indexed under no tag key at all:
on a new index every `GetSeriesIDsForTag` still answers `ErrNotFound`. -/
theorem buildInvertIndex_no_tags_indexes_nothing (index : invertedIndex)
    (metadata : Metadata) (namespace_ metricName : String) (seriesID tagKeyID : Nat) :
    index.buildInvertIndex namespace_ metricName [] seriesID = index ∧
    ((newInvertedIndex metadata).buildInvertIndex namespace_ metricName [] seriesID).GetSeriesIDsForTag
        tagKeyID = (none, some Error.ErrNotFound) :=
  ⟨rfl, rfl⟩

/-- C4: whatever the outcome of the other tags of the map and whatever the order
in which the map is iterated, a tag whose key resolves to `k` and whose value
resolves to `v` leaves the series queryable: afterwards both
`GetSeriesIDsByTagValueIDs(k, {v})` and `GetSeriesIDsForTag(k)` succeed and
contain `seriesID`. -/
theorem buildInvertIndex_partial_failure (index : invertedIndex)
    (namespace_ metricName : String) (tags : List (String × String)) (seriesID : Nat)
    (tag : String × String) (k v : Nat) (hmem : tag ∈ tags)
    (hk : index.metadata.metadataDatabase.GenTagKeyID namespace_ metricName tag.1 = .ok k)
    (hv : index.metadata.tagMetadata.GenTagValueID k tag.2 = .ok v) :
    (∃ bm, (index.buildInvertIndex namespace_ metricName tags seriesID).GetSeriesIDsByTagValueIDs
        k {v} = (some bm, none) ∧ seriesID ∈ bm) ∧
    (∃ bm, (index.buildInvertIndex namespace_ metricName tags seriesID).GetSeriesIDsForTag k
        = (some bm, none) ∧ seriesID ∈ bm) := by
  have h1 := (buildInvertIndex_registered index namespace_ metricName tags seriesID k v
    seriesID).mpr (Or.inr ⟨tag, hmem, hk, hv, rfl⟩)
  have h2 := (buildInvertIndex_registeredAll index namespace_ metricName tags seriesID k
    seriesID).mpr (Or.inr ⟨tag, hmem, hk, ⟨v, hv⟩, rfl⟩)
  obtain ⟨t, ht, hmem1⟩ := h1
  obtain ⟨t2, ht2, hmem2⟩ := h2
  rw [ht] at ht2
  cases ht2
  unfold invertedIndex.GetSeriesIDsByTagValueIDs invertedIndex.GetSeriesIDsForTag
  rw [ht]
  refine ⟨⟨_, rfl, ?_⟩, ⟨_, rfl, hmem2⟩⟩
  simpa [TagIndex.getSeriesIDsByTagValueIDs] using hmem1

/-- C4, the concrete scenario: of the three tags `region`, `host`, `env` the key
`host` fails to resolve; series 10 is queryable under `env` (key 2, value 200),
and likewise under `region`. -/
theorem buildInvertIndex_partial_failure_witness :
    exampleMetadata.metadataDatabase.GenTagKeyID "ns" "cpu" "host"
      = .error (Error.other "gen tag key id") ∧
    ((∃ bm, ((newInvertedIndex exampleMetadata).buildInvertIndex "ns" "cpu"
        [("region", "us"), ("host", "h1"), ("env", "prod")] 10).GetSeriesIDsByTagValueIDs
        2 {200} = (some bm, none) ∧ 10 ∈ bm) ∧
    (∃ bm, ((newInvertedIndex exampleMetadata).buildInvertIndex "ns" "cpu"
        [("region", "us"), ("host", "h1"), ("env", "prod")] 10).GetSeriesIDsForTag 2
        = (some bm, none) ∧ 10 ∈ bm)) ∧
    ((newInvertedIndex exampleMetadata).buildInvertIndex "ns" "cpu"
        [("region", "us"), ("host", "h1"), ("env", "prod")] 10).GetSeriesIDsByTagValueIDs
        1 {100} = (some {10}, none) :=
  ⟨rfl,
    buildInvertIndex_partial_failure (newInvertedIndex exampleMetadata) "ns" "cpu"
      [("region", "us"), ("host", "h1"), ("env", "prod")] 10 ("env", "prod") 2 200
      (by simp) rfl rfl,
    by decide⟩

/-- C5, as stated, fails: on a new index a call whose only tag resolves its key
to 1 but fails value resolution changes the store, which now holds an (empty)
TagIndex for key 1, and `GetSeriesIDsForTag(1)` succeeds with the empty bitmap
instead of failing with `ErrNotFound`. -/
theorem value_failure_changes_store :
    exampleMetadata.metadataDatabase.GenTagKeyID "ns" "cpu" "region" = .ok 1 ∧
    exampleMetadata.tagMetadata.GenTagValueID 1 "asia"
      = .error (Error.other "gen tag value id") ∧
    (newInvertedIndex exampleMetadata).GetSeriesIDsForTag 1 = (none, some Error.ErrNotFound) ∧
    ((newInvertedIndex exampleMetadata).buildInvertIndex "ns" "cpu"
        [("region", "asia")] 10).store ≠ (newInvertedIndex exampleMetadata).store ∧
    ((newInvertedIndex exampleMetadata).buildInvertIndex "ns" "cpu"
        [("region", "asia")] 10).GetSeriesIDsForTag 1 = (some ∅, none) := by
  refine ⟨rfl, rfl, rfl, ?_, rfl⟩
  intro h
  have h2 := congrArg (fun st : TagIndexStore => (st.Get 1).isSome) h
  exact absurd h2 (by decide)

/-- C5, amended: a call whose only tag resolves its key to `k` but fails value
resolution registers the series nowhere; the store afterwards is the store
before with an empty TagIndex put under `k` if `k` had none (the TagIndex is
created before the tag value is resolved). So the store is unchanged when `k`
already had a TagIndex, and otherwise `GetSeriesIDsForTag(k)` now succeeds with
an empty bitmap. -/
theorem buildInvertIndex_value_failure (index : invertedIndex)
    (namespace_ metricName tagKey tagValue : String) (seriesID k : Nat) (e : Error)
    (hk : index.metadata.metadataDatabase.GenTagKeyID namespace_ metricName tagKey = .ok k)
    (hv : index.metadata.tagMetadata.GenTagValueID k tagValue = .error e) :
    (index.buildInvertIndex namespace_ metricName [(tagKey, tagValue)] seriesID).store
        = index.store.Put k newTagIndex ∧
    ((index.store.Get k).isSome = true →
      (index.buildInvertIndex namespace_ metricName [(tagKey, tagValue)] seriesID).store
        = index.store) ∧
    (index.store.Get k = none →
      (index.buildInvertIndex namespace_ metricName [(tagKey, tagValue)] seriesID).GetSeriesIDsForTag
        k = (some ∅, none)) ∧
    (∀ k2 v s,
      Registered (index.buildInvertIndex namespace_ metricName [(tagKey, tagValue)]
        seriesID).store k2 v s ↔ Registered index.store k2 v s) ∧
    (∀ k2 s,
      RegisteredAll (index.buildInvertIndex namespace_ metricName [(tagKey, tagValue)]
        seriesID).store k2 s ↔ RegisteredAll index.store k2 s) := by
  have hstore : (index.buildInvertIndex namespace_ metricName [(tagKey, tagValue)]
      seriesID).store = index.store.Put k newTagIndex := by
    apply TagIndexStore.ext_indexes
    intro k2
    simp only [invertedIndex.buildInvertIndex, List.foldl_cons, List.foldl_nil,
      buildInvertIndexStep_indexes, hk, stepTagIndex, hv, TagIndexStore.Put]
    by_cases h : k2 = k
    · subst h
      cases index.store.indexes k2 <;> simp
    · simp [h]
  refine ⟨hstore, ?_, ?_, ?_, ?_⟩
  · intro hsome
    rw [hstore]
    apply TagIndexStore.ext_indexes
    intro k2
    by_cases h : k2 = k
    · subst h
      cases hget : index.store.indexes k2 with
      | none => simp [TagIndexStore.Get, hget] at hsome
      | some t => simp [TagIndexStore.Put, hget]
    · simp [TagIndexStore.Put, h]
  · intro hnone
    unfold invertedIndex.GetSeriesIDsForTag
    rw [hstore]
    simp only [TagIndexStore.Get] at hnone
    simp [TagIndexStore.Get, TagIndexStore.Put, hnone, newTagIndex, TagIndex.getAllSeriesIDs]
  · intro k2 v s
    rw [buildInvertIndex_registered]
    simp only [List.mem_singleton, exists_eq_left, or_iff_left_iff_imp]
    rintro ⟨h1, h2, _⟩
    rw [hk] at h1
    cases h1
    rw [hv] at h2
    cases h2
  · intro k2 s
    rw [buildInvertIndex_registeredAll]
    simp only [List.mem_singleton, exists_eq_left, or_iff_left_iff_imp]
    rintro ⟨h1, ⟨v, h2⟩, _⟩
    rw [hk] at h1
    cases h1
    rw [hv] at h2
    cases h2

/-- C5, amended, on the concrete call: tag `region: asia` on a new index. -/
theorem buildInvertIndex_value_failure_witness :
    ((newInvertedIndex exampleMetadata).buildInvertIndex "ns" "cpu"
        [("region", "asia")] 10).store
      = (newInvertedIndex exampleMetadata).store.Put 1 newTagIndex ∧
    ∀ k2 v s,
      ¬ Registered ((newInvertedIndex exampleMetadata).buildInvertIndex "ns" "cpu"
        [("region", "asia")] 10).store k2 v s :=
  have h := buildInvertIndex_value_failure (newInvertedIndex exampleMetadata) "ns" "cpu"
    "region" "asia" 10 1 (Error.other "gen tag value id") rfl rfl
  ⟨h.1, fun k2 v s hr => not_registered_new k2 v s ((h.2.2.2.1 k2 v s).mp hr)⟩

/-- C9: `buildInvertIndex` does not depend on the order in which the tag map is
iterated: for every index, series and metadata collaborator (whichever
resolutions fail), two orderings of the same pairs yield the same index. -/
theorem buildInvertIndex_order_independent (index : invertedIndex)
    (namespace_ metricName : String) (tags₁ tags₂ : List (String × String)) (seriesID : Nat)
    (hperm : tags₁.Perm tags₂) :
    index.buildInvertIndex namespace_ metricName tags₁ seriesID
      = index.buildInvertIndex namespace_ metricName tags₂ seriesID := by
  unfold invertedIndex.buildInvertIndex
  congr 1
  exact hperm.foldl_eq'
    (fun x _ y _ z =>
      buildInvertIndexStep_comm index.metadata namespace_ metricName seriesID z x y)
    index.store

/-- C9 on a concrete map: the three tags `region`, `host` (whose key fails to
resolve) and `env` visited in two different orders. -/
theorem buildInvertIndex_order_independent_witness :
    [("region", "us"), ("host", "h1"), ("env", "prod")].Perm
      [("env", "prod"), ("region", "us"), ("host", "h1")] ∧
    exampleIndex.buildInvertIndex "ns" "cpu"
        [("region", "us"), ("host", "h1"), ("env", "prod")] 12
      = exampleIndex.buildInvertIndex "ns" "cpu"
        [("env", "prod"), ("region", "us"), ("host", "h1")] 12 :=
  have hperm : [("region", "us"), ("host", "h1"), ("env", "prod")].Perm
      [("env", "prod"), ("region", "us"), ("host", "h1")] := by decide
  ⟨hperm, buildInvertIndex_order_independent exampleIndex "ns" "cpu" _ _ 12 hperm⟩

/-- C7 on the concrete scenario: `GetGroupingContext([2, 1])` has the entry set
allocated for key 2 at position 0 and the one allocated for key 1 at position 1. -/
theorem getGroupingContext_positions_witness :
    (∀ k ∈ [2, 1], (exampleIndex.store.Get k).isSome = true) ∧
    ∃ ctx, exampleIndex.GetGroupingContext [2, 1] 0 = (some ctx, none) ∧
      ctx.gCtx.tagValuesEntrySets.length = [2, 1].length ∧
      (exampleIndex.groupingAllocations [2, 1] 0).length = [2, 1].length ∧
      ∀ (i : Nat) (hi : i < [2, 1].length),
        ∃ e, ctx.gCtx.tagValuesEntrySets[i]? = some (some e) ∧
          e.addr = 0 + i ∧
          (exampleIndex.groupingAllocations [2, 1] 0)[i]? = some (e.addr, [2, 1][i]) :=
  have h : ∀ k ∈ [2, 1], (exampleIndex.store.Get k).isSome = true := by decide
  ⟨h, getGroupingContext_positions exampleIndex [2, 1] 0 h⟩

/-! ## Unfinished paths -/

/-- C10: the entry sets `GetGroupingContext` returns are never populated (the
call `SetTagValues(tagIndex.getValues())` is commented out). In `entryIndexA`
series 10 carries value 100 under key 1, in `entryIndexB` it carries value 101,
yet both return the same context, whose single entry set knows no tag value. -/
theorem getGroupingContext_entry_sets_unpopulated :
    entryIndexA.GetSeriesIDsByTagValueIDs 1 {100} = (some {10}, none) ∧
    entryIndexB.GetSeriesIDsByTagValueIDs 1 {100} = (some ∅, none) ∧
    entryIndexB.GetSeriesIDsByTagValueIDs 1 {101} = (some {10}, none) ∧
    entryIndexA.GetGroupingContext [1] 0 = entryIndexB.GetGroupingContext [1] 0 ∧
    entryIndexA.GetGroupingContext [1] 0
      = (some { gCtx := { tagValuesEntrySets := [some (NewTagValuesEntrySet 0)] } }, none) ∧
    ∀ v, (NewTagValuesEntrySet 0).tagValues v = none :=
  ⟨by decide, by decide, by decide, rfl, rfl, fun _ => rfl⟩

/-- C8: `FlushInvertedIndexTo` panics with "need to impl" on every store and
every flusher; on the store whose keys were inserted in the order 5, 1, 3 it
neither returns nor hands any `FlushTagKeyID` call to the flusher. -/
theorem flushInvertedIndexTo_panics (index : invertedIndex)
    (flusher : Flusher (List FlushCall)) (w : List FlushCall) :
    index.FlushInvertedIndexTo flusher w = Outcome.panicked "need to impl" ∧
    flushExampleIndex.FlushInvertedIndexTo recordingFlusher []
      = Outcome.panicked "need to impl" ∧
    ∀ calls err, flushExampleIndex.FlushInvertedIndexTo recordingFlusher []
      ≠ Outcome.returned (calls, err) :=
  ⟨rfl, rfl, fun _ _ h => Outcome.noConfusion h⟩

end Indexdb
